import Mathlib

/-! NMTKit samplers.

A shallow embedding of `src/lib/monotone_sampler.cc` and of the batching
pipeline of `SortedRandomSampler` (exercised by
`src/test/sorted_random_sampler_test.cc`), together with the properties of
the sampler contract.

Conventions of the embedding:

* `std::vector<T>` is a `List T`; a token id (`unsigned`) is a `Nat`.
* `int batch_size_` is an `Int`; the cursor `current_` and the counter
  `iterated_` (returned as `long` by `numIterated`) are natural numbers: the
  cursor never exceeds the corpus size, and the counter grows by one per
  emitted sample, so it stays below `2^63` in any run that can be carried out.
* A failing `NMTKIT_CHECK` / `NMTKIT_CHECK_EQ` is `Except.error (Error.check msg)`.
  Reading a vector past its end (undefined behaviour of `operator[]`) is
  `Except.error Error.outOfRange`, so that a theorem stating success also
  states that every read is in range.
-/

set_option autoImplicit false

namespace NMTKit

/-- One side of a sentence pair: a sequence of token ids. -/
abbrev Sentence := List Nat

/-- An aligned sentence pair. -/
structure Sample where
  source : Sentence
  target : Sentence
deriving DecidableEq, Repr

/-- Failures of the embedded code. -/
inductive Error where
  | check (msg : String)
  | outOfRange
deriving DecidableEq, Repr

/-- The mutating member functions a caller can invoke. -/
inductive Call where
  | getSamples
  | rewind
  | reset
deriving DecidableEq, Repr

/-- What the caller observes of one call. -/
inductive Event where
  | returned (batch : List Sample)
  | failed (e : Error)
  | rewound
  | wasReset
deriving DecidableEq, Repr

/-- Whether the event is a `reset()`. -/
def Event.isReset : Event → Bool
  | .wasReset => true
  | _ => false

/-- Number of samples the call handed to the caller. -/
def Event.size : Event → Nat
  | .returned batch => batch.length
  | _ => 0

/-- Total number of samples returned by the calls made after the most recent
`reset()` of the trace (by all of them when it has no `reset()`). -/
def returnedSinceReset (events : List Event) : Nat :=
  (((events.reverse.takeWhile (fun e => !e.isReset)).reverse).map Event.size).sum

/-- Data members of `MonotoneSampler`. -/
structure MonotoneSampler where
  src_samples_ : List Sentence
  trg_samples_ : List Sentence
  batch_size_ : Int
  forever_ : Bool
  current_ : Nat
  iterated_ : Nat
deriving DecidableEq, Repr

namespace MonotoneSampler

/-- `MonotoneSampler::rewind`. -/
def rewind (s : MonotoneSampler) : MonotoneSampler :=
  { s with current_ := 0 }

/-- `MonotoneSampler::reset`. -/
def reset (s : MonotoneSampler) : MonotoneSampler :=
  rewind { s with iterated_ := 0 }

/-- `MonotoneSampler::hasSamples`. -/
def hasSamples (s : MonotoneSampler) : Bool :=
  decide (s.current_ < s.src_samples_.length)

/-- `MonotoneSampler::numIterated`. -/
def numIterated (s : MonotoneSampler) : Nat :=
  s.iterated_

/-- The constructor, after the two corpora have been loaded: the two checks
in source order, then `reset()`. -/
def new (src trg : List Sentence) (batch_size : Int) (forever : Bool) :
    Except Error MonotoneSampler :=
  if src.length ≠ trg.length then
    .error (.check "Number of sentences in source and target corpus are different.")
  else if ¬ (batch_size > 0) then
    .error (.check "batch_size should be greater than 0.")
  else
    .ok (reset
      { src_samples_ := src, trg_samples_ := trg, batch_size_ := batch_size,
        forever_ := forever, current_ := 0, iterated_ := 0 })

/-- The `for` loop of `getSamples`; the first argument is the number of
iterations still to run (`batch_size_ - i`). -/
def getSamplesLoop : Nat → MonotoneSampler → List Sample →
    Except Error (List Sample × MonotoneSampler)
  | 0, s, result => .ok (result, s)
  | k + 1, s, result =>
    match s.src_samples_[s.current_]?, s.trg_samples_[s.current_]? with
    | some x, some y =>
      let result1 := result ++ [Sample.mk x y]
      let s1 := { s with current_ := s.current_ + 1, iterated_ := s.iterated_ + 1 }
      if !s1.hasSamples then
        if s1.forever_ then getSamplesLoop k s1.rewind result1
        else .ok (result1, s1)
      else getSamplesLoop k s1 result1
    | _, _ => .error .outOfRange

/-- `std::vector::clear`. -/
def clear (_result : List Sample) : List Sample := []

/-- `MonotoneSampler::getSamples`: `result` is the caller's vector on entry;
the returned pair is that vector and the sampler on exit. -/
def getSamples (s : MonotoneSampler) (result : List Sample) :
    Except Error (List Sample × MonotoneSampler) :=
  if !s.hasSamples then .error (.check "No more samples in the sampler.")
  else
    getSamplesLoop s.batch_size_.toNat s (clear result)

/-- The corpus as the sequence of pairs `(source[i], target[i])`. -/
def corpus (s : MonotoneSampler) : List Sample :=
  List.zipWith Sample.mk s.src_samples_ s.trg_samples_

/-- What the constructor establishes and every operation keeps: the two
corpora are parallel and the batch size is positive. -/
def Valid (s : MonotoneSampler) : Prop :=
  s.src_samples_.length = s.trg_samples_.length ∧ 0 < s.batch_size_

/-- The consumer loop
`while (sampler.hasSamples()) { sampler.getSamples(&samples); ... }`,
recording every batch it receives. `fuel` bounds the number of `getSamples`
calls; the result is `none` when the bound is hit with samples still left. -/
def drain : Nat → MonotoneSampler → List Sample → List (List Sample) →
    Except Error (Option (List (List Sample) × MonotoneSampler))
  | 0, s, _, batches =>
    if !s.hasSamples then .ok (some (batches, s)) else .ok none
  | fuel + 1, s, samples, batches =>
    if !s.hasSamples then .ok (some (batches, s))
    else
      match s.getSamples samples with
      | .error e => .error e
      | .ok (samples1, s1) => drain fuel s1 samples1 (batches ++ [samples1])

/-- One call on the sampler. A `getSamples` that throws does so in its first
statement, before any member is written, so the sampler is left as it was. -/
def call (s : MonotoneSampler) : Call → Event × MonotoneSampler
  | .getSamples =>
    match s.getSamples [] with
    | .ok (batch, s1) => (.returned batch, s1)
    | .error e => (.failed e, s)
  | .rewind => (.rewound, s.rewind)
  | .reset => (.wasReset, s.reset)

/-- A sequence of calls, in order: the events observed and the final sampler. -/
def runCalls : MonotoneSampler → List Call → List Event × MonotoneSampler
  | s, [] => ([], s)
  | s, c :: cs =>
    let r := call s c
    let rest := runCalls r.2 cs
    (r.1 :: rest.1, rest.2)

/-- The sampler with its iteration counter disregarded. -/
def forgetIterated (s : MonotoneSampler) : MonotoneSampler :=
  { s with iterated_ := 0 }

/-- A three-pair corpus in non-forever mode with batch size 2, for concrete
runs. -/
def exampleOnce : MonotoneSampler :=
  { src_samples_ := [[1, 3], [2, 3], [4, 3]], trg_samples_ := [[7, 3], [8, 3], [9, 3]],
    batch_size_ := 2, forever_ := false, current_ := 0, iterated_ := 0 }

/-- The same corpus in forever mode, the cursor on the last pair. -/
def exampleForever : MonotoneSampler :=
  { src_samples_ := [[1, 3], [2, 3], [4, 3]], trg_samples_ := [[7, 3], [8, 3], [9, 3]],
    batch_size_ := 2, forever_ := true, current_ := 2, iterated_ := 0 }

end MonotoneSampler

/-! ## `SortedRandomSampler`

`lib/sorted_random_sampler.cc` is not among the sources at hand (only its test
is); the sampler below follows section 4.3 of the specification. -/

/-- Modelled from the spec: the budget metric of `SortedRandomSampler`
(its constructor is missing from the sources), the quantity that
`num_words_in_batch` bounds. -/
inductive BudgetMetric where
  | sentence
  | source_word
  | target_word
deriving DecidableEq, Repr

/-- Modelled from the spec: the sort method of `SortedRandomSampler`
(its constructor is missing from the sources). -/
inductive SortMethod where
  | none
  | source
  | target
  | source_target
  | target_source
deriving DecidableEq, Repr

/-- Modelled from the spec: the seeded random generator owned by the sampler
(the generator class is missing from the sources). A generator state is a
number; `value` is the number drawn in a state and `advance` the next state.
Every result below holds for every generator. -/
structure Generator where
  value : Nat → Nat
  advance : Nat → Nat

/-- A linear congruential generator, for concrete runs. -/
def lcg : Generator where
  value := fun st => st / 65536
  advance := fun st => (st * 1103515245 + 12345) % 4294967296

/-- Modelled from the spec: data of `SortedRandomSampler` (the class
declaration is missing from the sources): configuration, the filtered working
set, the batch plan, the random state and the cursor pair. -/
structure SortedRandomSampler where
  budget_metric : BudgetMetric
  sort_method : SortMethod
  num_words_in_batch : Int
  working_set : List Sample
  batch_plan : List (List Sample)
  random_state : Nat
  current : Nat
  iterated : Nat
deriving DecidableEq, Repr

namespace SortedRandomSampler

/-- Modelled from the spec: step 1 of the pipeline of
`SortedRandomSampler` (missing from the sources). A pair is discarded when a
side is longer than `max_length` or when the longer side divided by the
shorter one exceeds `max_length_ratio`; the ratio is a rational number here. -/
def keeps (max_length : Nat) (max_length_ratio : ℚ) (s : Sample) : Bool :=
  !(decide (s.source.length > max_length) ||
    decide (s.target.length > max_length) ||
    decide (((max s.source.length s.target.length : Nat) : ℚ) /
        ((min s.source.length s.target.length : Nat) : ℚ) > max_length_ratio))

/-- Modelled from the spec: steps 2 and 5 of the pipeline of
`SortedRandomSampler` (missing from the sources), a shuffle driven by the
random state: every element is put at a drawn position among those already
placed. Returns the shuffled sequence and the advanced random state. -/
def shuffle {α : Type} (gen : Generator) : List α → Nat → List α × Nat
  | [], rnd => ([], rnd)
  | x :: xs, rnd =>
    let r := shuffle gen xs rnd
    (r.1.insertIdx (gen.value r.2 % (r.1.length + 1)) x, gen.advance r.2)

/-- Modelled from the spec: the sort key of step 3 of the pipeline of
`SortedRandomSampler` (missing from the sources), as a pair compared
lexicographically; single-key methods leave the second component constant. -/
def sortKey : SortMethod → Sample → Nat × Nat
  | .none, _ => (0, 0)
  | .source, s => (s.source.length, 0)
  | .target, s => (s.target.length, 0)
  | .source_target, s => (s.source.length, s.target.length)
  | .target_source, s => (s.target.length, s.source.length)

/-- Modelled from the spec: the order of step 3 of the pipeline of
`SortedRandomSampler` (missing from the sources): lexicographic comparison of
the sort keys. -/
def keyLe (m : SortMethod) (a b : Sample) : Prop :=
  (sortKey m a).1 < (sortKey m b).1 ∨
    ((sortKey m a).1 = (sortKey m b).1 ∧ (sortKey m a).2 ≤ (sortKey m b).2)

instance (m : SortMethod) : DecidableRel (keyLe m) :=
  fun a b => by unfold keyLe; infer_instance

/-- Modelled from the spec: step 3 of the pipeline of `SortedRandomSampler`
(missing from the sources): a stable sort by the configured key, nothing for
`none`. -/
def sortSamples (m : SortMethod) (l : List Sample) : List Sample :=
  match m with
  | .none => l
  | _ => l.insertionSort (keyLe m)

/-- Modelled from the spec: the per-item cost of step 4 of the pipeline of
`SortedRandomSampler` (missing from the sources). -/
def itemCost : BudgetMetric → Sample → Nat
  | .sentence, _ => 1
  | .source_word, s => s.source.length
  | .target_word, s => s.target.length

/-- Modelled from the spec: step 4 of the pipeline of `SortedRandomSampler`
(missing from the sources), one left-to-right pass. `cur` is the open batch
and `curMax` the largest per-item cost in it. Before `s` joins a batch of
size `n` the value `(n + 1) * (largest cost, s included)` is computed; if it
exceeds the budget and the batch is non-empty, the batch is closed and a new
one starts with `s`. -/
def bucket (metric : BudgetMetric) (budget : Int) :
    List Sample → List Sample → Nat → List (List Sample)
  | [], cur, _ => if cur.isEmpty then [] else [cur]
  | s :: rest, cur, curMax =>
    if (((cur.length + 1) * max curMax (itemCost metric s) : Nat) : Int) > budget
        ∧ ¬ cur.isEmpty then
      cur :: bucket metric budget rest [s] (itemCost metric s)
    else
      bucket metric budget rest (cur ++ [s]) (max curMax (itemCost metric s))

/-- Modelled from the spec: `SortedRandomSampler::rewind` (missing from the
sources): steps 2 to 5 of the pipeline with the advancing random state, then
the batch-plan position back to 0. -/
def rewind (gen : Generator) (s : SortedRandomSampler) : SortedRandomSampler :=
  let shuffled := shuffle gen s.working_set s.random_state
  let sorted := sortSamples s.sort_method shuffled.1
  let batches := bucket s.budget_metric s.num_words_in_batch sorted [] 0
  let plan := shuffle gen batches shuffled.2
  { s with batch_plan := plan.1, random_state := plan.2, current := 0 }

/-- Modelled from the spec: `SortedRandomSampler::reset` (missing from the
sources): `iterated` to 0, then `rewind()`. -/
def reset (gen : Generator) (s : SortedRandomSampler) : SortedRandomSampler :=
  rewind gen { s with iterated := 0 }

/-- Modelled from the spec: `SortedRandomSampler::hasSamples` (missing from
the sources). -/
def hasSamples (s : SortedRandomSampler) : Bool :=
  decide (s.current < s.batch_plan.length)

/-- Modelled from the spec: `SortedRandomSampler::numIterated` (missing from
the sources). -/
def numIterated (s : SortedRandomSampler) : Nat :=
  s.iterated

/-- Modelled from the spec: `SortedRandomSampler::getSamples` (missing from
the sources): the batch at the current batch-plan position, verbatim. -/
def getSamples (s : SortedRandomSampler) (_out : List Sample) :
    Except Error (List Sample × SortedRandomSampler) :=
  match s.batch_plan[s.current]? with
  | none => .error (.check "No more samples in the sampler.")
  | some batch =>
    .ok (batch, { s with current := s.current + 1, iterated := s.iterated + batch.length })

/-- Modelled from the spec: the constructor of `SortedRandomSampler` (missing
from the sources), after the two corpora have been loaded: the three failure
conditions, the one-time filter, then the first run of the pipeline. -/
def new (gen : Generator) (src trg : List Sentence)
    (budget_metric : BudgetMetric) (sort_method : SortMethod)
    (num_words_in_batch : Int) (max_length : Nat) (max_length_ratio : ℚ)
    (random_seed : Nat) : Except Error SortedRandomSampler :=
  if src.length ≠ trg.length then
    .error (.check "Number of sentences in source and target corpus are different.")
  else if ¬ (num_words_in_batch > 0) then
    .error (.check "num_words_in_batch should be greater than 0.")
  else if ((List.zipWith Sample.mk src trg).filter
      (keeps max_length max_length_ratio)).isEmpty then
    .error (.check "Corpus files are empty.")
  else
    .ok (reset gen
      { budget_metric := budget_metric, sort_method := sort_method,
        num_words_in_batch := num_words_in_batch,
        working_set := (List.zipWith Sample.mk src trg).filter
          (keeps max_length max_length_ratio),
        batch_plan := [], random_state := random_seed, current := 0, iterated := 0 })

/-- One call on the sampler; a failing `getSamples` leaves it as it was. -/
def call (gen : Generator) (s : SortedRandomSampler) : Call → Event × SortedRandomSampler
  | .getSamples =>
    match s.getSamples [] with
    | .ok (batch, s1) => (.returned batch, s1)
    | .error e => (.failed e, s)
  | .rewind => (.rewound, s.rewind gen)
  | .reset => (.wasReset, s.reset gen)

/-- A sequence of calls, in order: the events observed and the final sampler. -/
def runCalls (gen : Generator) :
    SortedRandomSampler → List Call → List Event × SortedRandomSampler
  | s, [] => ([], s)
  | s, c :: cs =>
    let r := call gen s c
    let rest := runCalls gen r.2 cs
    (r.1 :: rest.1, rest.2)

/-- The loop `while (sampler.hasSamples()) { sampler.getSamples(&samples); ... }`
of the test, recording every batch; `fuel` bounds the number of calls and the
result is `none` when the bound is hit with batches still left. -/
def drain : Nat → SortedRandomSampler → List Sample → List (List Sample) →
    Except Error (Option (List (List Sample) × SortedRandomSampler))
  | 0, s, _, batches =>
    if !s.hasSamples then .ok (some (batches, s)) else .ok none
  | fuel + 1, s, samples, batches =>
    if !s.hasSamples then .ok (some (batches, s))
    else
      match s.getSamples samples with
      | .error e => .error e
      | .ok (samples1, s1) => drain fuel s1 samples1 (batches ++ [samples1])

/-- Largest per-item cost in a batch (0 for the empty batch). -/
def maxCost (metric : BudgetMetric) (batch : List Sample) : Nat :=
  (batch.map (itemCost metric)).foldr max 0

/-- The budget invariant for one batch: non-empty, and `|b| * max cost`
within the budget unless the batch is a single sample. -/
def WithinBudget (metric : BudgetMetric) (budget : Int) (batch : List Sample) : Prop :=
  batch ≠ [] ∧
    (batch.length = 1 ∨ ((batch.length * maxCost metric batch : Nat) : Int) ≤ budget)

/-- What every reachable sampler satisfies, for fixed configuration `metric`,
`budget` and working set `ws`: the batch plan partitions the working set and
each of its batches is within the budget. -/
def PlanOk (metric : BudgetMetric) (budget : Int) (ws : List Sample)
    (s : SortedRandomSampler) : Prop :=
  s.budget_metric = metric ∧ s.num_words_in_batch = budget ∧ s.working_set = ws ∧
    s.batch_plan.flatten.Perm ws ∧
    ∀ b ∈ s.batch_plan, WithinBudget metric budget b

/-- `expected_batch_sizes` of `CheckIteration` in
`test/sorted_random_sampler_test.cc`. -/
def expected_batch_sizes : List Nat :=
  [21, 28, 21, 18, 18, 16, 32, 17, 19, 19,
   36, 23, 15, 25, 25, 17, 23, 18, 16, 21,
   28, 19, 25]

/-- `expected_lengths` of `CheckIteration` in
`test/sorted_random_sampler_test.cc`. -/
def expected_lengths : List Nat :=
  [12, 9, 12, 14, 14, 16, 8, 15, 13, 13,
   7, 11, 16, 10, 10, 15, 11, 14, 16, 12,
   9, 13, 10]

/-- A five-pair corpus, for concrete runs. -/
def exampleSource : List Sentence := [[1, 3], [2, 2, 3], [4, 3], [5, 5, 5, 3], [1, 1, 3]]

/-- The target side of `exampleSource`. -/
def exampleTarget : List Sentence := [[7, 3], [8, 3], [9, 9, 3], [6, 3], [6, 6, 3]]

/-- The first batch of `exampleSorted`. -/
def exampleBatch : List Sample :=
  [Sample.mk [4, 3] [9, 9, 3], Sample.mk [1, 1, 3] [6, 6, 3]]

/-- The sampler constructed over the example corpus with a budget of 6 target
words, sorting by `target_source` and seed 12345. -/
def exampleSorted : SortedRandomSampler :=
  reset lcg
    { budget_metric := .target_word, sort_method := .target_source,
      num_words_in_batch := 6,
      working_set := List.zipWith Sample.mk exampleSource exampleTarget,
      batch_plan := [], random_state := 12345, current := 0, iterated := 0 }

end SortedRandomSampler

/-! ## `EncoderDecoder::decodeForInference`

The numeric graph machinery of the external library (embedding lookup,
attention, LSTM, softmax) is kept abstract: a decoder is any state type with a
transition and two read-outs, the attention probabilities and the vector of
log-probabilities, over an arbitrary type `ρ` of floating-point values. What
`decodeForInference` itself does with these vectors is embedded as written, in
particular the unchecked read `log_probs_values[out_word_id]`. `unsigned`
arithmetic is arithmetic modulo `2^32`. -/

/-- Label of a node of the inference graph, `{word_id, word_log_prob,
atten_probs}`. -/
structure Label (ρ : Type) where
  word_id : Nat
  word_log_prob : ρ
  atten_probs : List ρ

/-- Modelled from the spec: `InferenceGraph` (its declaration is missing from
the sources), as `decodeForInference` uses it: nodes in the order they were
added and directed edges between node positions. -/
structure InferenceGraph (ρ : Type) where
  nodes : List (Label ρ)
  edges : List (Nat × Nat)

namespace InferenceGraph

/-- Modelled from the spec: `InferenceGraph::clear` (missing from the sources). -/
def clear {ρ : Type} (_ig : InferenceGraph ρ) : InferenceGraph ρ :=
  { nodes := [], edges := [] }

end InferenceGraph

namespace EncoderDecoder

end EncoderDecoder

/-! ## Lemmas on `MonotoneSampler` -/

namespace MonotoneSampler

theorem corpus_length (s : MonotoneSampler)
    (h : s.src_samples_.length = s.trg_samples_.length) :
    (corpus s).length = s.src_samples_.length := by
  simp [corpus, h]

theorem corpus_getElem? (s : MonotoneSampler) (i : Nat) (x y : Sentence)
    (hx : s.src_samples_[i]? = some x) (hy : s.trg_samples_[i]? = some y) :
    (corpus s)[i]? = some (Sample.mk x y) := by
  simp [corpus, List.getElem?_zipWith, hx, hy]

/-- One iteration of the loop body at an in-range cursor. -/
theorem getSamplesLoop_succ (k : Nat) (s : MonotoneSampler) (result : List Sample)
    (hlen : s.src_samples_.length = s.trg_samples_.length)
    (hc : s.current_ < s.src_samples_.length) :
    ∃ x, (corpus s)[s.current_]? = some x ∧
      getSamplesLoop (k + 1) s result =
        (if s.current_ + 1 < s.src_samples_.length then
          getSamplesLoop k { s with current_ := s.current_ + 1, iterated_ := s.iterated_ + 1 }
            (result ++ [x])
        else if s.forever_ then
          getSamplesLoop k { s with current_ := 0, iterated_ := s.iterated_ + 1 }
            (result ++ [x])
        else
          .ok (result ++ [x],
            { s with current_ := s.current_ + 1, iterated_ := s.iterated_ + 1 })) := by
  have hc2 : s.current_ < s.trg_samples_.length := hlen ▸ hc
  refine ⟨Sample.mk s.src_samples_[s.current_] s.trg_samples_[s.current_], ?_, ?_⟩
  · exact corpus_getElem? s _ _ _ (List.getElem?_eq_getElem hc) (List.getElem?_eq_getElem hc2)
  · rw [getSamplesLoop]
    simp only [List.getElem?_eq_getElem hc, List.getElem?_eq_getElem hc2, hasSamples, rewind]
    by_cases h1 : s.current_ + 1 < s.src_samples_.length
    · simp [h1]
    · simp [h1]

theorem drop_take_succ {α : Type} (l : List α) (c k : Nat) (x : α)
    (h : l[c]? = some x) :
    (l.drop c).take (k + 1) = x :: (l.drop (c + 1)).take k := by
  obtain ⟨hc, rfl⟩ := List.getElem?_eq_some_iff.mp h
  rw [List.drop_eq_getElem_cons hc, List.take_succ_cons]

/-- The loop in non-forever mode: `k` iterations from an in-range cursor `c`
append the next `min k (n - c)` corpus pairs and stop at the corpus end. -/
theorem getSamplesLoop_once (k : Nat) (s : MonotoneSampler) (result : List Sample)
    (hlen : s.src_samples_.length = s.trg_samples_.length)
    (hf : s.forever_ = false)
    (hc : s.current_ < s.src_samples_.length) :
    getSamplesLoop k s result =
      .ok (result ++ ((corpus s).drop s.current_).take k,
        { s with
          current_ := s.current_ + min k (s.src_samples_.length - s.current_),
          iterated_ := s.iterated_ + min k (s.src_samples_.length - s.current_) }) := by
  induction k generalizing s result with
  | zero => simp [getSamplesLoop]
  | succ k ih =>
    obtain ⟨x, hx, heq⟩ := getSamplesLoop_succ k s result hlen hc
    rw [heq, drop_take_succ _ _ _ _ hx]
    by_cases h1 : s.current_ + 1 < s.src_samples_.length
    · rw [if_pos h1,
        ih { s with current_ := s.current_ + 1, iterated_ := s.iterated_ + 1 } _ hlen hf h1]
      have e : min (k + 1) (s.src_samples_.length - s.current_)
          = 1 + min k (s.src_samples_.length - (s.current_ + 1)) := by omega
      simp [corpus, e, Nat.add_assoc]
    · rw [if_neg h1, if_neg (by simp [hf])]
      have e : min (k + 1) (s.src_samples_.length - s.current_) = 1 := by omega
      have hd : List.drop (s.current_ + 1) (corpus s) = [] := by
        apply List.drop_eq_nil_of_le
        rw [corpus_length s hlen]; omega
      simp [e, hd]

/-- The loop in forever mode: `k` iterations from an in-range cursor `c`
append exactly `k` samples, the `i`-th being the corpus pair at
`(c + i) mod n`, and leave the cursor at `(c + k) mod n`. -/
theorem getSamplesLoop_forever (k : Nat) (s : MonotoneSampler) (result : List Sample)
    (hlen : s.src_samples_.length = s.trg_samples_.length)
    (hf : s.forever_ = true)
    (hc : s.current_ < s.src_samples_.length) :
    ∃ batch : List Sample,
      getSamplesLoop k s result =
        .ok (result ++ batch,
          { s with
            current_ := (s.current_ + k) % s.src_samples_.length,
            iterated_ := s.iterated_ + k }) ∧
      batch.length = k ∧
      ∀ i, i < k →
        batch[i]? = (corpus s)[(s.current_ + i) % s.src_samples_.length]? := by
  induction k generalizing s result with
  | zero =>
    refine ⟨[], ?_, rfl, by simp⟩
    simp [getSamplesLoop, Nat.mod_eq_of_lt hc]
  | succ k ih =>
    obtain ⟨x, hx, heq⟩ := getSamplesLoop_succ k s result hlen hc
    by_cases h1 : s.current_ + 1 < s.src_samples_.length
    · obtain ⟨batch, hb, hl, hi⟩ :=
        ih { s with current_ := s.current_ + 1, iterated_ := s.iterated_ + 1 }
          (result ++ [x]) hlen hf h1
      refine ⟨x :: batch, ?_, by simp [hl], ?_⟩
      · rw [heq, if_pos h1, hb]
        simp [Nat.add_assoc, Nat.add_comm 1 k]
      · intro i hik
        cases i with
        | zero => simpa [Nat.mod_eq_of_lt hc] using hx.symm
        | succ j =>
          have := hi j (by omega)
          simp only [corpus] at this ⊢
          simp only [List.getElem?_cons_succ, this]
          congr 2; omega
    · obtain ⟨batch, hb, hl, hi⟩ :=
        ih { s with current_ := 0, iterated_ := s.iterated_ + 1 }
          (result ++ [x]) hlen hf (by simp; omega)
      have hn : s.current_ + 1 = s.src_samples_.length := by omega
      refine ⟨x :: batch, ?_, by simp [hl], ?_⟩
      · rw [heq, if_neg h1, if_pos hf, hb]
        have e : (s.current_ + (k + 1)) % s.src_samples_.length
            = k % s.src_samples_.length := by
          rw [show s.current_ + (k + 1) = k + s.src_samples_.length by omega,
            Nat.add_mod_right]
        simp [Nat.add_assoc, Nat.add_comm 1 k, e]
      · intro i hik
        cases i with
        | zero => simpa [Nat.mod_eq_of_lt hc] using hx.symm
        | succ j =>
          have := hi j (by omega)
          simp only [corpus] at this ⊢
          simp only [List.getElem?_cons_succ, this, Nat.zero_add]
          congr 1
          rw [show s.current_ + (j + 1) = j + s.src_samples_.length by omega,
            Nat.add_mod_right]

/-- Inside the corpus both sides can be read and `corpus` pairs them. -/
theorem corpus_pair (s : MonotoneSampler) (i : Nat)
    (hlen : s.src_samples_.length = s.trg_samples_.length)
    (hi : i < s.src_samples_.length) :
    ∃ x y, s.src_samples_[i]? = some x ∧ s.trg_samples_[i]? = some y ∧
      (corpus s)[i]? = some (Sample.mk x y) := by
  have hi2 : i < s.trg_samples_.length := hlen ▸ hi
  exact ⟨s.src_samples_[i], s.trg_samples_[i], List.getElem?_eq_getElem hi,
    List.getElem?_eq_getElem hi2,
    corpus_getElem? s _ _ _ (List.getElem?_eq_getElem hi) (List.getElem?_eq_getElem hi2)⟩

theorem getSamples_of_hasSamples (s : MonotoneSampler) (result : List Sample)
    (h : s.current_ < s.src_samples_.length) :
    s.getSamples result = getSamplesLoop s.batch_size_.toNat s [] := by
  simp [getSamples, hasSamples, h, clear]

/-- C3. In non-forever mode, from a cursor `c < n` and with a positive batch
size `b`, `getSamples` discards what the output held and returns the
`min b (n - c)` pairs `(source[c + i], target[c + i])` in order, leaves the
cursor at `c + min b (n - c)`, and `hasSamples` is false afterwards exactly
when `c + b >= n`. -/
theorem getSamples_non_forever (s : MonotoneSampler) (result : List Sample)
    (hv : s.Valid) (hf : s.forever_ = false)
    (hc : s.current_ < s.src_samples_.length) :
    ∃ batch s1, s.getSamples result = .ok (batch, s1) ∧
      batch.length = min s.batch_size_.toNat (s.src_samples_.length - s.current_) ∧
      (∀ i, i < min s.batch_size_.toNat (s.src_samples_.length - s.current_) →
        ∃ x y, s.src_samples_[s.current_ + i]? = some x ∧
          s.trg_samples_[s.current_ + i]? = some y ∧
          batch[i]? = some (Sample.mk x y)) ∧
      s1.current_ =
        s.current_ + min s.batch_size_.toNat (s.src_samples_.length - s.current_) ∧
      (s1.hasSamples = false ↔
        s.src_samples_.length ≤ s.current_ + s.batch_size_.toNat) := by
  obtain ⟨hlen, hb⟩ := hv
  have hb1 : 0 < s.batch_size_.toNat := by omega
  refine ⟨[] ++ ((corpus s).drop s.current_).take s.batch_size_.toNat,
    { s with
      current_ :=
        s.current_ + min s.batch_size_.toNat (s.src_samples_.length - s.current_),
      iterated_ :=
        s.iterated_ + min s.batch_size_.toNat (s.src_samples_.length - s.current_) },
    ?_, ?_, ?_, rfl, ?_⟩
  · rw [getSamples_of_hasSamples s result hc,
      getSamplesLoop_once _ s [] hlen hf hc]
  · simp [corpus_length s hlen]
  · intro i hi
    obtain ⟨x, y, hx, hy, hxy⟩ := corpus_pair s (s.current_ + i) hlen (by omega)
    refine ⟨x, y, hx, hy, ?_⟩
    rw [← hxy]
    simp only [List.nil_append]
    rw [List.getElem?_take_of_lt (by omega), List.getElem?_drop]
  · simp only [hasSamples, decide_eq_false_iff_not]
    omega

/-- C2. In forever mode, on a non-empty corpus of size `n`, from a cursor
`c < n` and with a positive batch size `b`, `getSamples` returns exactly `b`
samples, the `i`-th being `(source[(c + i) mod n], target[(c + i) mod n])`,
and leaves the cursor at `(c + b) mod n`; a batch that reaches the corpus end
starts with the tail of the corpus. -/
theorem getSamples_forever (s : MonotoneSampler) (result : List Sample)
    (hv : s.Valid) (hf : s.forever_ = true)
    (hc : s.current_ < s.src_samples_.length) :
    ∃ batch s1, s.getSamples result = .ok (batch, s1) ∧
      batch.length = s.batch_size_.toNat ∧
      (∀ i, i < s.batch_size_.toNat →
        ∃ x y,
          s.src_samples_[(s.current_ + i) % s.src_samples_.length]? = some x ∧
          s.trg_samples_[(s.current_ + i) % s.src_samples_.length]? = some y ∧
          batch[i]? = some (Sample.mk x y)) ∧
      s1.current_ = (s.current_ + s.batch_size_.toNat) % s.src_samples_.length ∧
      (s.src_samples_.length ≤ s.current_ + s.batch_size_.toNat →
        batch.take (s.src_samples_.length - s.current_) = (corpus s).drop s.current_ ∧
        ∀ j, s.src_samples_.length - s.current_ + j < s.batch_size_.toNat →
          batch[s.src_samples_.length - s.current_ + j]? =
            (corpus s)[j % s.src_samples_.length]?) := by
  obtain ⟨hlen, hb⟩ := hv
  obtain ⟨batch, hg, hl, hi⟩ :=
    getSamplesLoop_forever s.batch_size_.toNat s [] hlen hf hc
  have hmod : ∀ i, (s.current_ + i) % s.src_samples_.length < s.src_samples_.length :=
    fun i => Nat.mod_lt _ (by omega)
  refine ⟨batch,
    { s with
      current_ := (s.current_ + s.batch_size_.toNat) % s.src_samples_.length,
      iterated_ := s.iterated_ + s.batch_size_.toNat },
    ?_, hl, ?_, rfl, ?_⟩
  · rw [getSamples_of_hasSamples s result hc, hg, List.nil_append]
  · intro i hib
    obtain ⟨x, y, hx, hy, hxy⟩ := corpus_pair s _ hlen (hmod i)
    exact ⟨x, y, hx, hy, (hi i hib).trans hxy⟩
  · intro hwrap
    constructor
    · apply List.ext_getElem?
      intro i
      by_cases hin : i < s.src_samples_.length - s.current_
      · rw [List.getElem?_take_of_lt hin, hi i (by omega), List.getElem?_drop,
          Nat.mod_eq_of_lt (by omega)]
      · rw [List.getElem?_eq_none (by simp; omega),
          List.getElem?_eq_none (by simp [corpus_length s hlen]; omega)]
    · intro j hj
      rw [hi _ hj]
      congr 1
      rw [show s.current_ + (s.src_samples_.length - s.current_ + j)
          = j + s.src_samples_.length by omega, Nat.add_mod_right]

/-- C8. Given the two loaded corpora and the batch size, construction fails
exactly when `batch_size <= 0` or the corpora differ in sample count, always
with a check (configuration) error; on success the sampler holds the two
parallel corpora, cursor 0 and `numIterated() = 0`. -/
theorem new_fails_iff (src trg : List Sentence) (batch_size : Int) (forever : Bool) :
    ((∃ e, MonotoneSampler.new src trg batch_size forever = .error e) ↔
      (batch_size ≤ 0 ∨ src.length ≠ trg.length)) ∧
    (∀ e, MonotoneSampler.new src trg batch_size forever = .error e →
      ∃ msg, e = Error.check msg) ∧
    (∀ s, MonotoneSampler.new src trg batch_size forever = .ok s →
      s.src_samples_ = src ∧ s.trg_samples_ = trg ∧
      s.batch_size_ = batch_size ∧ s.forever_ = forever ∧
      s.src_samples_.length = s.trg_samples_.length ∧
      s.current_ = 0 ∧ s.numIterated = 0) := by
  unfold MonotoneSampler.new
  by_cases h1 : src.length = trg.length
  · by_cases h2 : batch_size > 0
    · have h3 : ¬ batch_size ≤ 0 := by omega
      simp [h1, h2, h3, reset, rewind, numIterated]
    · have h3 : batch_size ≤ 0 := by omega
      simp [h1, h3]
  · simp [h1]

/-- A successfully constructed sampler is valid and starts at cursor 0 with
a zero counter. -/
theorem new_ok {src trg : List Sentence} {batch_size : Int} {forever : Bool}
    {s : MonotoneSampler}
    (h : MonotoneSampler.new src trg batch_size forever = .ok s) :
    s = { src_samples_ := src, trg_samples_ := trg, batch_size_ := batch_size,
          forever_ := forever, current_ := 0, iterated_ := 0 } ∧
      src.length = trg.length ∧ 0 < batch_size := by
  unfold MonotoneSampler.new at h
  by_cases h1 : src.length = trg.length
  · by_cases h2 : batch_size > 0
    · simp [h1, h2, reset, rewind] at h
      exact ⟨h.symm, h1, h2⟩
    · simp [h1, h2] at h
  · simp [h1] at h

/-- C5. In a valid sampler state (parallel corpora and a positive batch size,
as in every state reached from construction) `getSamples` fails if and only
if `hasSamples()` is false, and then with the precondition error; when
`hasSamples()` is true it succeeds and returns a non-empty batch. -/
theorem getSamples_fails_iff (s : MonotoneSampler) (result : List Sample)
    (hv : s.Valid) :
    ((∃ e, s.getSamples result = .error e) ↔ s.hasSamples = false) ∧
    (s.hasSamples = false →
      s.getSamples result = .error (.check "No more samples in the sampler.")) ∧
    (s.hasSamples = true →
      ∃ batch s1, s.getSamples result = .ok (batch, s1) ∧ batch ≠ []) := by
  have hb1 : 0 < s.batch_size_.toNat := by have := hv.2; omega
  have hfalse : s.hasSamples = false →
      s.getSamples result = .error (.check "No more samples in the sampler.") := by
    intro h
    simp [getSamples, h]
  have htrue : s.hasSamples = true →
      ∃ batch s1, s.getSamples result = .ok (batch, s1) ∧ batch ≠ [] := by
    intro h
    have hc : s.current_ < s.src_samples_.length := by simpa [hasSamples] using h
    rw [getSamples_of_hasSamples s result hc]
    cases hf : s.forever_ with
    | false =>
      rw [getSamplesLoop_once _ s [] hv.1 hf hc]
      refine ⟨_, _, rfl, ?_⟩
      obtain ⟨x, hx⟩ : ∃ x, (corpus s)[s.current_]? = some x := by
        obtain ⟨x, y, -, -, hxy⟩ := corpus_pair s s.current_ hv.1 hc
        exact ⟨_, hxy⟩
      obtain ⟨k, hk⟩ : ∃ k, s.batch_size_.toNat = k + 1 := ⟨s.batch_size_.toNat - 1, by omega⟩
      rw [hk, drop_take_succ _ _ _ _ hx]
      simp
    | true =>
      obtain ⟨batch, hg, hl, -⟩ :=
        getSamplesLoop_forever s.batch_size_.toNat s [] hv.1 hf hc
      refine ⟨batch, _, by rw [hg, List.nil_append], ?_⟩
      intro hnil
      rw [hnil] at hl
      simp at hl
      omega
  refine ⟨⟨?_, fun h => ⟨_, hfalse h⟩⟩, hfalse, htrue⟩
  rintro ⟨e, he⟩
  cases hs : s.hasSamples with
  | false => rfl
  | true =>
    obtain ⟨batch, s1, hg, -⟩ := htrue hs
    rw [hg] at he
    cases he

/-- Whatever the state, a loop that returns has only moved the cursor and
has raised the counter by the number of samples it appended. -/
theorem getSamplesLoop_frame (k : Nat) (s : MonotoneSampler) (result : List Sample)
    (out : List Sample) (s1 : MonotoneSampler)
    (h : getSamplesLoop k s result = .ok (out, s1)) :
    s1.src_samples_ = s.src_samples_ ∧ s1.trg_samples_ = s.trg_samples_ ∧
    s1.batch_size_ = s.batch_size_ ∧ s1.forever_ = s.forever_ ∧
    s1.iterated_ + result.length = s.iterated_ + out.length := by
  induction k generalizing s result with
  | zero =>
    simp only [getSamplesLoop, Except.ok.injEq, Prod.mk.injEq] at h
    obtain ⟨rfl, rfl⟩ := h
    simp
  | succ k ih =>
    rw [getSamplesLoop] at h
    split at h
    · simp only at h
      split_ifs at h
      · have := ih _ _ h
        simp only [rewind, List.length_append, List.length_singleton] at this
        refine ⟨this.1, this.2.1, this.2.2.1, this.2.2.2.1, ?_⟩
        omega
      · simp only [Except.ok.injEq, Prod.mk.injEq] at h
        obtain ⟨rfl, rfl⟩ := h
        simp
        omega
      · have := ih _ _ h
        simp only [List.length_append, List.length_singleton] at this
        refine ⟨this.1, this.2.1, this.2.2.1, this.2.2.2.1, ?_⟩
        omega
    · cases h

/-- Effect of one call on the counter and on the immutable members. -/
theorem call_frame (s : MonotoneSampler) (c : Call) :
    (call s c).2.src_samples_ = s.src_samples_ ∧
    (call s c).2.trg_samples_ = s.trg_samples_ ∧
    (call s c).2.batch_size_ = s.batch_size_ ∧
    (call s c).2.forever_ = s.forever_ ∧
    (call s c).2.iterated_ =
      if (call s c).1.isReset then 0 else s.iterated_ + (call s c).1.size := by
  cases c with
  | getSamples =>
    simp only [call]
    cases hg : s.getSamples [] with
    | error e => simp [Event.isReset, Event.size]
    | ok p =>
      obtain ⟨batch, s1⟩ := p
      simp only [Event.isReset, Event.size]
      unfold getSamples at hg
      split_ifs at hg
      have := getSamplesLoop_frame _ _ _ _ _ hg
      simp only [clear, List.length_nil, Nat.add_zero] at this
      simp [this]
  | rewind => simp [call, rewind, Event.isReset, Event.size]
  | reset => simp [call, reset, rewind, Event.isReset, Event.size]

theorem runCalls_frame (s : MonotoneSampler) (cs : List Call) :
    (runCalls s cs).2.src_samples_ = s.src_samples_ ∧
    (runCalls s cs).2.trg_samples_ = s.trg_samples_ ∧
    (runCalls s cs).2.batch_size_ = s.batch_size_ ∧
    (runCalls s cs).2.forever_ = s.forever_ := by
  induction cs generalizing s with
  | nil => simp [runCalls]
  | cons c cs ih =>
    have h1 := call_frame s c
    have h2 := ih (call s c).2
    simp only [runCalls]
    exact ⟨h2.1.trans h1.1, h2.2.1.trans h1.2.1, h2.2.2.1.trans h1.2.2.1,
      h2.2.2.2.trans h1.2.2.2.1⟩

theorem runCalls_append (s : MonotoneSampler) (cs ds : List Call) :
    runCalls s (cs ++ ds) =
      ((runCalls s cs).1 ++ (runCalls (runCalls s cs).2 ds).1,
        (runCalls (runCalls s cs).2 ds).2) := by
  induction cs generalizing s with
  | nil => simp [runCalls]
  | cons c cs ih => simp [runCalls, ih]

theorem returnedSinceReset_snoc (es : List Event) (e : Event) :
    returnedSinceReset (es ++ [e]) =
      if e.isReset then 0 else returnedSinceReset es + e.size := by
  unfold returnedSinceReset
  rw [List.reverse_append, List.reverse_singleton, List.singleton_append,
    List.takeWhile_cons]
  cases h : e.isReset <;> simp

/-- The counter after any trace, from a state whose counter is zero. -/
theorem runCalls_iterated (s : MonotoneSampler) (cs : List Call)
    (h0 : s.iterated_ = 0) :
    (runCalls s cs).2.iterated_ = returnedSinceReset (runCalls s cs).1 := by
  induction cs using List.reverseRecOn with
  | nil => simp [runCalls, returnedSinceReset, h0]
  | append_singleton cs c ih =>
    rw [runCalls_append]
    simp only [runCalls]
    rw [returnedSinceReset_snoc, ← ih]
    exact (call_frame _ c).2.2.2.2

/-- Every state reached from a successful construction is valid. -/
theorem runCalls_valid {src trg : List Sentence} {batch_size : Int} {forever : Bool}
    {s0 : MonotoneSampler}
    (h : MonotoneSampler.new src trg batch_size forever = .ok s0) (calls : List Call) :
    (runCalls s0 calls).2.Valid := by
  obtain ⟨rfl, hlen, hb⟩ := new_ok h
  have hfr := runCalls_frame
    { src_samples_ := src, trg_samples_ := trg, batch_size_ := batch_size,
      forever_ := forever, current_ := 0, iterated_ := 0 } calls
  exact ⟨by rw [hfr.1, hfr.2.1]; exact hlen, by rw [hfr.2.2.1]; exact hb⟩

/-- C6. After construction and any sequence of `getSamples` / `rewind` /
`reset` calls, `numIterated()` is the total number of samples returned by
the successful `getSamples` calls since the most recent `reset()` (since
construction when there was none): a successful `getSamples` raises it by
the size of the batch it returned, in either mode, `rewind()` leaves it
unchanged and `reset()` sets it to 0. -/
theorem numIterated_counts_returned (src trg : List Sentence) (batch_size : Int)
    (forever : Bool) (s0 : MonotoneSampler)
    (h : MonotoneSampler.new src trg batch_size forever = .ok s0)
    (calls : List Call) :
    (runCalls s0 calls).2.numIterated = returnedSinceReset (runCalls s0 calls).1 ∧
    (∀ (s : MonotoneSampler) (result batch : List Sample) (s1 : MonotoneSampler),
      s.getSamples result = .ok (batch, s1) →
        s1.numIterated = s.numIterated + batch.length) ∧
    (∀ s : MonotoneSampler, s.rewind.numIterated = s.numIterated) ∧
    (∀ s : MonotoneSampler, s.reset.numIterated = 0) := by
  refine ⟨?_, ?_, fun _ => rfl, fun _ => rfl⟩
  · apply runCalls_iterated
    rw [(new_ok h).1]
  · intro s result batch s1 hg
    unfold getSamples at hg
    split_ifs at hg
    have := getSamplesLoop_frame _ _ _ _ _ hg
    simpa [clear, numIterated] using this.2.2.2.2

/-- In forever mode on a non-empty corpus no call moves the cursor out of
the corpus. -/
theorem call_forever_cursor (s : MonotoneSampler) (c : Call)
    (hlen : s.src_samples_.length = s.trg_samples_.length)
    (hf : s.forever_ = true)
    (hc : s.current_ < s.src_samples_.length) :
    (call s c).2.current_ < s.src_samples_.length := by
  cases c with
  | getSamples =>
    obtain ⟨batch, hg, -⟩ := getSamplesLoop_forever s.batch_size_.toNat s [] hlen hf hc
    simp only [call]
    rw [getSamples_of_hasSamples s [] hc, hg]
    exact Nat.mod_lt _ (by omega)
  | rewind => simp only [call, rewind]; omega
  | reset => simp only [call, reset, rewind]; omega

theorem runCalls_forever_cursor (s : MonotoneSampler) (cs : List Call)
    (hlen : s.src_samples_.length = s.trg_samples_.length)
    (hf : s.forever_ = true)
    (hc : s.current_ < s.src_samples_.length) :
    (runCalls s cs).2.current_ < s.src_samples_.length := by
  induction cs generalizing s with
  | nil => simpa [runCalls] using hc
  | cons c cs ih =>
    have hfr := call_frame s c
    have hstep := call_forever_cursor s c hlen hf hc
    have := ih (call s c).2 (by rw [hfr.1, hfr.2.1]; exact hlen)
      (by rw [hfr.2.2.2.1]; exact hf) (by rw [hfr.1]; exact hstep)
    simpa [runCalls, hfr.1] using this

/-- C4 as stated fails: a forever-mode sampler over an empty corpus is
constructed successfully and `hasSamples()` is false right away. -/
theorem hasSamples_forever_empty_corpus :
    ∃ s0, MonotoneSampler.new [] [] 1 true = .ok s0 ∧
      (runCalls s0 []).2.hasSamples = false :=
  ⟨_, rfl, rfl⟩

/-- C4, amended. For a successfully constructed forever-mode sampler over a
non-empty corpus, `hasSamples()` is true in every state reached from
construction through any sequence of `getSamples`, `rewind` and `reset`
calls. -/
theorem hasSamples_forever_nonempty (src trg : List Sentence) (batch_size : Int)
    (s0 : MonotoneSampler)
    (h : MonotoneSampler.new src trg batch_size true = .ok s0)
    (hne : src ≠ [])
    (calls : List Call) :
    (runCalls s0 calls).2.hasSamples = true := by
  obtain ⟨rfl, hlen, -⟩ := new_ok h
  have hpos : 0 < src.length := List.length_pos.mpr hne
  have hc := runCalls_forever_cursor
    { src_samples_ := src, trg_samples_ := trg, batch_size_ := batch_size,
      forever_ := true, current_ := 0, iterated_ := 0 } calls hlen rfl hpos
  have hfr := runCalls_frame
    { src_samples_ := src, trg_samples_ := trg, batch_size_ := batch_size,
      forever_ := true, current_ := 0, iterated_ := 0 } calls
  simp only [hasSamples, decide_eq_true_eq, hfr.1]
  exact hc

/-- The loop reads the counter nowhere: its batch and its final state, counter
aside, are those of the run started with the counter at zero. -/
theorem getSamplesLoop_forget (k : Nat) (s : MonotoneSampler) (result : List Sample) :
    (getSamplesLoop k s result).map (fun p => (p.1, forgetIterated p.2)) =
      (getSamplesLoop k (forgetIterated s) result).map
        (fun p => (p.1, forgetIterated p.2)) := by
  induction k generalizing s result with
  | zero => simp [getSamplesLoop, forgetIterated, Except.map]
  | succ k ih =>
    rw [getSamplesLoop, getSamplesLoop]
    simp only [forgetIterated, hasSamples, rewind]
    split
    · split_ifs
      · refine (ih _ _).trans ?_
        refine Eq.trans ?_ (ih _ _).symm
        rfl
      · simp [Except.map]
      · refine (ih _ _).trans ?_
        refine Eq.trans ?_ (ih _ _).symm
        rfl
    · rfl

theorem call_forget (s : MonotoneSampler) (c : Call) :
    (call s c).1 = (call (forgetIterated s) c).1 ∧
    forgetIterated (call s c).2 = forgetIterated (call (forgetIterated s) c).2 := by
  cases c with
  | getSamples =>
    have h := getSamplesLoop_forget s.batch_size_.toNat s (clear [])
    simp only [call, getSamples]
    have hs : (forgetIterated s).hasSamples = s.hasSamples := rfl
    have hb : (forgetIterated s).batch_size_ = s.batch_size_ := rfl
    rw [hs, hb]
    cases hh : s.hasSamples with
    | false => simp [forgetIterated]
    | true =>
      simp only [Bool.not_true, Bool.false_eq_true, if_false]
      cases h1 : getSamplesLoop s.batch_size_.toNat s (clear []) with
      | error e1 =>
        cases h2 : getSamplesLoop s.batch_size_.toNat (forgetIterated s) (clear []) with
        | error e2 =>
          rw [h1, h2] at h
          simp only [Except.map, Except.error.injEq] at h
          simp [h, forgetIterated]
        | ok q =>
          rw [h1, h2] at h
          simp [Except.map] at h
      | ok p =>
        cases h2 : getSamplesLoop s.batch_size_.toNat (forgetIterated s) (clear []) with
        | error e2 =>
          rw [h1, h2] at h
          simp [Except.map] at h
        | ok q =>
          rw [h1, h2] at h
          simp only [Except.map, Except.ok.injEq, Prod.mk.injEq] at h
          simp [h.1, h.2]
  | rewind => simp [call, rewind, forgetIterated]
  | reset => simp [call, reset, rewind, forgetIterated]

/-- What a caller observes of a sequence of calls does not depend on the
counter the sampler starts with. -/
theorem runCalls_forget (s : MonotoneSampler) (cs : List Call) :
    (runCalls s cs).1 = (runCalls (forgetIterated s) cs).1 := by
  induction cs generalizing s with
  | nil => rfl
  | cons c cs ih =>
    obtain ⟨h1, h2⟩ := call_forget s c
    simp only [runCalls]
    rw [h1, ih (call s c).2, h2, ← ih (call (forgetIterated s) c).2]

/-- C7. In any state reached after construction, `rewind()` sets the cursor
to 0 and leaves the counter, both corpora, the batch size and the forever
flag unchanged; hence what any further sequence of calls returns after a
`rewind()` (in particular the sequence of batches of repeated `getSamples`)
is what the same calls return right after construction. -/
theorem rewind_frame_and_replay (src trg : List Sentence) (batch_size : Int)
    (forever : Bool) (s0 : MonotoneSampler)
    (h : MonotoneSampler.new src trg batch_size forever = .ok s0)
    (calls later : List Call) :
    (runCalls s0 calls).2.rewind.current_ = 0 ∧
    (runCalls s0 calls).2.rewind.iterated_ = (runCalls s0 calls).2.iterated_ ∧
    (runCalls s0 calls).2.rewind.src_samples_ = (runCalls s0 calls).2.src_samples_ ∧
    (runCalls s0 calls).2.rewind.trg_samples_ = (runCalls s0 calls).2.trg_samples_ ∧
    (runCalls s0 calls).2.rewind.batch_size_ = (runCalls s0 calls).2.batch_size_ ∧
    (runCalls s0 calls).2.rewind.forever_ = (runCalls s0 calls).2.forever_ ∧
    (runCalls (runCalls s0 calls).2.rewind later).1 = (runCalls s0 later).1 := by
  refine ⟨rfl, rfl, rfl, rfl, rfl, rfl, ?_⟩
  have hfr := runCalls_frame s0 calls
  have hs0 := (new_ok h).1
  have hc0 : s0.current_ = 0 := by rw [hs0]
  have hkey : forgetIterated (runCalls s0 calls).2.rewind = forgetIterated s0 := by
    simp only [forgetIterated, rewind, hfr.1, hfr.2.1, hfr.2.2.1, hfr.2.2.2, ← hc0]
  rw [runCalls_forget, hkey, ← runCalls_forget]

theorem ceil_div_step (m b : Nat) (hb : 0 < b) (hm : 0 < m) :
    (m + b - 1) / b = (m - min b m + b - 1) / b + 1 := by
  by_cases h : m ≤ b
  · rw [Nat.min_eq_right h]
    have e1 : m - m + b - 1 = b - 1 := by omega
    have e2 : m + b - 1 = (m - 1) + b := by omega
    rw [e1, e2, Nat.add_div_right _ hb, Nat.div_eq_of_lt (by omega),
      Nat.div_eq_of_lt (by omega)]
  · rw [Nat.min_eq_left (by omega)]
    have e1 : m + b - 1 = (m - b + b - 1) + b := by omega
    rw [e1, Nat.add_div_right _ hb]

/-- The consumer loop in non-forever mode with `m` samples left: it makes
`ceil (m / b)` calls and collects the rest of the corpus. -/
theorem drain_spec (m : Nat) :
    ∀ (s : MonotoneSampler) (samples : List Sample) (acc : List (List Sample)),
      s.Valid → s.forever_ = false → s.current_ + m = s.src_samples_.length →
      ∃ batches sEnd,
        (∀ fuel, drain fuel s samples acc =
          if fuel < (m + s.batch_size_.toNat - 1) / s.batch_size_.toNat then .ok none
          else .ok (some (acc ++ batches, sEnd))) ∧
        batches.length = (m + s.batch_size_.toNat - 1) / s.batch_size_.toNat ∧
        (∀ i, i + 1 < batches.length →
          ∃ batch, batches[i]? = some batch ∧ batch.length = s.batch_size_.toNat) ∧
        batches.flatten = (corpus s).drop s.current_ ∧
        sEnd.hasSamples = false := by
  induction m using Nat.strong_induction_on with
  | _ m ih =>
    intro s samples acc hv hf hcm
    have hb : 0 < s.batch_size_.toNat := by have := hv.2; omega
    rcases Nat.eq_zero_or_pos m with hm | hm
    · subst hm
      have hs : s.hasSamples = false := by simp [hasSamples]; omega
      have hK : (s.batch_size_.toNat - 1) / s.batch_size_.toNat = 0 :=
        Nat.div_eq_of_lt (by omega)
      simp only [Nat.zero_add, hK]
      refine ⟨[], s, ?_, rfl, by simp, ?_, hs⟩
      · intro fuel
        cases fuel <;> simp [drain, hs]
      · rw [List.flatten_nil, List.drop_eq_nil_of_le]
        rw [corpus_length s hv.1]; omega
    · have hc : s.current_ < s.src_samples_.length := by omega
      have hs : s.hasSamples = true := by simp [hasSamples]; omega
      have hnm : s.src_samples_.length - s.current_ = m := by omega
      have hget : ∀ r, s.getSamples r =
          .ok (((corpus s).drop s.current_).take s.batch_size_.toNat,
            { s with
              current_ := s.current_ + min s.batch_size_.toNat m,
              iterated_ := s.iterated_ + min s.batch_size_.toNat m }) := by
        intro r
        rw [getSamples_of_hasSamples s r hc, getSamplesLoop_once _ s [] hv.1 hf hc,
          hnm, List.nil_append]
      obtain ⟨batches, sEnd, hdrain, hlen, hfull, hflat, hend⟩ :=
        ih (m - min s.batch_size_.toNat m) (by omega)
          { s with
            current_ := s.current_ + min s.batch_size_.toNat m,
            iterated_ := s.iterated_ + min s.batch_size_.toNat m }
          (((corpus s).drop s.current_).take s.batch_size_.toNat)
          (acc ++ [((corpus s).drop s.current_).take s.batch_size_.toNat])
          hv hf (by simp only; omega)
      simp only at hdrain hlen hfull hflat
      have hK := ceil_div_step m s.batch_size_.toNat hb hm
      have hdl : ((corpus s).drop s.current_).length = m := by
        rw [List.length_drop, corpus_length s hv.1]; exact hnm
      refine ⟨((corpus s).drop s.current_).take s.batch_size_.toNat :: batches, sEnd,
        ?_, ?_, ?_, ?_, hend⟩
      · intro fuel
        cases fuel with
        | zero =>
          have : 0 < (m + s.batch_size_.toNat - 1) / s.batch_size_.toNat := by omega
          simp [drain, hs, this]
        | succ fuel =>
          simp only [drain, hs, Bool.not_true, Bool.false_eq_true, if_false, hget, hdrain]
          rw [hK]
          simp only [Nat.add_lt_add_iff_right, List.append_assoc, List.singleton_append]
      · rw [List.length_cons, hlen, hK]
      · intro i hi
        cases i with
        | zero =>
          refine ⟨((corpus s).drop s.current_).take s.batch_size_.toNat, by simp, ?_⟩
          rw [List.length_take, hdl]
          rw [List.length_cons, hlen] at hi
          have hpos : 0 < (m - min s.batch_size_.toNat m + s.batch_size_.toNat - 1)
              / s.batch_size_.toNat := by omega
          by_contra hne
          have hle : m ≤ s.batch_size_.toNat := by omega
          have e1 : m - min s.batch_size_.toNat m + s.batch_size_.toNat - 1
              = s.batch_size_.toNat - 1 := by omega
          rw [e1, Nat.div_eq_of_lt (by omega)] at hpos
          exact absurd hpos (by decide)
        | succ j =>
          rw [List.length_cons] at hi
          simpa using hfull j (by omega)
      · rw [List.flatten_cons, hflat]
        show _ ++ List.drop (s.current_ + min s.batch_size_.toNat m) (corpus s) = _
        rw [← List.drop_drop]
        by_cases hle : s.batch_size_.toNat ≤ m
        · rw [Nat.min_eq_left hle, List.take_append_drop]
        · have h1 : List.take s.batch_size_.toNat (List.drop s.current_ (corpus s))
              = List.drop s.current_ (corpus s) :=
            List.take_of_length_le (by rw [hdl]; omega)
          have h2 : List.drop m (List.drop s.current_ (corpus s)) = [] :=
            List.drop_eq_nil_of_le (by rw [hdl])
          rw [Nat.min_eq_right (by omega), h1, h2, List.append_nil]

/-- C1. In non-forever mode, with `n` aligned samples, batch size `b > 0` and
the cursor at 0 (the state after construction, `rewind` or `reset`), the loop
`while (hasSamples()) getSamples(...)` ends after exactly `ceil (n / b)`
calls (with fewer calls allowed it is still running), every batch but the
last has exactly `b` samples, and the batches concatenated are the corpus
pairs in corpus order. -/
theorem drain_covers_corpus (s : MonotoneSampler) (samples : List Sample)
    (hv : s.Valid) (hf : s.forever_ = false) (hc : s.current_ = 0) :
    ∃ batches sEnd,
      (∀ fuel, drain fuel s samples [] =
        if fuel < (s.src_samples_.length + s.batch_size_.toNat - 1) / s.batch_size_.toNat
        then .ok none
        else .ok (some (batches, sEnd))) ∧
      batches.length =
        (s.src_samples_.length + s.batch_size_.toNat - 1) / s.batch_size_.toNat ∧
      (∀ i, i + 1 < batches.length →
        ∃ batch, batches[i]? = some batch ∧ batch.length = s.batch_size_.toNat) ∧
      batches.flatten = List.zipWith Sample.mk s.src_samples_ s.trg_samples_ ∧
      sEnd.hasSamples = false := by
  obtain ⟨batches, sEnd, h1, h2, h3, h4, h5⟩ :=
    drain_spec s.src_samples_.length s samples [] hv hf (by omega)
  refine ⟨batches, sEnd, ?_, h2, h3, ?_, h5⟩
  · simpa using h1
  · simpa [hc, corpus] using h4

/-- The hypotheses of `drain_covers_corpus` hold for `exampleOnce`. -/
theorem drain_covers_corpus_witness :
    exampleOnce.Valid ∧ exampleOnce.forever_ = false ∧ exampleOnce.current_ = 0 ∧
    (∃ batches sEnd,
      (∀ fuel, drain fuel exampleOnce ([] : List Sample) [] =
        if fuel < (exampleOnce.src_samples_.length + exampleOnce.batch_size_.toNat - 1) / exampleOnce.batch_size_.toNat
        then .ok none
        else .ok (some (batches, sEnd))) ∧
      batches.length =
        (exampleOnce.src_samples_.length + exampleOnce.batch_size_.toNat - 1) / exampleOnce.batch_size_.toNat ∧
      (∀ i, i + 1 < batches.length →
        ∃ batch, batches[i]? = some batch ∧ batch.length = exampleOnce.batch_size_.toNat) ∧
      batches.flatten = List.zipWith Sample.mk exampleOnce.src_samples_ exampleOnce.trg_samples_ ∧
      sEnd.hasSamples = false) :=
  ⟨⟨rfl, by decide⟩, rfl, rfl, drain_covers_corpus exampleOnce [] ⟨rfl, by decide⟩ rfl rfl⟩

/-- The hypotheses of `getSamples_non_forever` hold for `exampleOnce`. -/
theorem getSamples_non_forever_witness :
    exampleOnce.Valid ∧ exampleOnce.forever_ = false ∧
    exampleOnce.current_ < exampleOnce.src_samples_.length ∧
    (∃ batch s1, exampleOnce.getSamples ([] : List Sample) = .ok (batch, s1) ∧
      batch.length = min exampleOnce.batch_size_.toNat (exampleOnce.src_samples_.length - exampleOnce.current_) ∧
      (∀ i, i < min exampleOnce.batch_size_.toNat (exampleOnce.src_samples_.length - exampleOnce.current_) →
        ∃ x y, exampleOnce.src_samples_[exampleOnce.current_ + i]? = some x ∧
          exampleOnce.trg_samples_[exampleOnce.current_ + i]? = some y ∧
          batch[i]? = some (Sample.mk x y)) ∧
      s1.current_ =
        exampleOnce.current_ + min exampleOnce.batch_size_.toNat (exampleOnce.src_samples_.length - exampleOnce.current_) ∧
      (s1.hasSamples = false ↔
        exampleOnce.src_samples_.length ≤ exampleOnce.current_ + exampleOnce.batch_size_.toNat)) :=
  ⟨⟨rfl, by decide⟩, rfl, by decide, getSamples_non_forever exampleOnce [] ⟨rfl, by decide⟩ rfl (by decide)⟩

/-- The hypotheses of `getSamples_forever` hold for `exampleForever`. -/
theorem getSamples_forever_witness :
    exampleForever.Valid ∧ exampleForever.forever_ = true ∧
    exampleForever.current_ < exampleForever.src_samples_.length ∧
    (∃ batch s1, exampleForever.getSamples ([] : List Sample) = .ok (batch, s1) ∧
      batch.length = exampleForever.batch_size_.toNat ∧
      (∀ i, i < exampleForever.batch_size_.toNat →
        ∃ x y,
          exampleForever.src_samples_[(exampleForever.current_ + i) % exampleForever.src_samples_.length]? = some x ∧
          exampleForever.trg_samples_[(exampleForever.current_ + i) % exampleForever.src_samples_.length]? = some y ∧
          batch[i]? = some (Sample.mk x y)) ∧
      s1.current_ = (exampleForever.current_ + exampleForever.batch_size_.toNat) % exampleForever.src_samples_.length ∧
      (exampleForever.src_samples_.length ≤ exampleForever.current_ + exampleForever.batch_size_.toNat →
        batch.take (exampleForever.src_samples_.length - exampleForever.current_) = (corpus exampleForever).drop exampleForever.current_ ∧
        ∀ j, exampleForever.src_samples_.length - exampleForever.current_ + j < exampleForever.batch_size_.toNat →
          batch[exampleForever.src_samples_.length - exampleForever.current_ + j]? =
            (corpus exampleForever)[j % exampleForever.src_samples_.length]?)) :=
  ⟨⟨rfl, by decide⟩, rfl, by decide, getSamples_forever exampleForever [] ⟨rfl, by decide⟩ rfl (by decide)⟩

/-- The hypothesis of `getSamples_fails_iff` holds for `exampleOnce`. -/
theorem getSamples_fails_iff_witness :
    exampleOnce.Valid ∧
    (((∃ e, exampleOnce.getSamples ([] : List Sample) = .error e) ↔ exampleOnce.hasSamples = false) ∧
    (exampleOnce.hasSamples = false →
      exampleOnce.getSamples ([] : List Sample) = .error (.check "No more samples in the sampler.")) ∧
    (exampleOnce.hasSamples = true →
      ∃ batch s1, exampleOnce.getSamples ([] : List Sample) = .ok (batch, s1) ∧ batch ≠ [])) :=
  ⟨⟨rfl, by decide⟩, getSamples_fails_iff exampleOnce [] ⟨rfl, by decide⟩⟩

/-- The hypotheses of `hasSamples_forever_nonempty` hold for the construction
of `exampleForever`. -/
theorem hasSamples_forever_nonempty_witness :
    MonotoneSampler.new exampleForever.src_samples_ exampleForever.trg_samples_ 2 true =
      .ok { exampleForever with current_ := 0 } ∧
    exampleForever.src_samples_ ≠ [] ∧
    ((runCalls { exampleForever with current_ := 0 } [Call.getSamples, Call.getSamples, Call.rewind]).2.hasSamples = true) :=
  ⟨rfl, by decide,
    hasSamples_forever_nonempty exampleForever.src_samples_ exampleForever.trg_samples_ 2
      { exampleForever with current_ := 0 } rfl (by decide)
      [Call.getSamples, Call.getSamples, Call.rewind]⟩

/-- The hypothesis of `numIterated_counts_returned` holds for the
construction of `exampleOnce`. -/
theorem numIterated_counts_returned_witness :
    MonotoneSampler.new exampleOnce.src_samples_ exampleOnce.trg_samples_ 2 false =
      .ok exampleOnce ∧
    ((runCalls exampleOnce [Call.getSamples, Call.reset, Call.getSamples, Call.rewind]).2.numIterated = returnedSinceReset (runCalls exampleOnce [Call.getSamples, Call.reset, Call.getSamples, Call.rewind]).1 ∧
    (∀ (s : MonotoneSampler) (result batch : List Sample) (s1 : MonotoneSampler),
      s.getSamples result = .ok (batch, s1) →
        s1.numIterated = s.numIterated + batch.length) ∧
    (∀ s : MonotoneSampler, s.rewind.numIterated = s.numIterated) ∧
    (∀ s : MonotoneSampler, s.reset.numIterated = 0)) :=
  ⟨rfl,
    numIterated_counts_returned exampleOnce.src_samples_ exampleOnce.trg_samples_ 2 false
      exampleOnce rfl [Call.getSamples, Call.reset, Call.getSamples, Call.rewind]⟩

/-- The hypothesis of `rewind_frame_and_replay` holds for the construction of
`exampleOnce`. -/
theorem rewind_frame_and_replay_witness :
    MonotoneSampler.new exampleOnce.src_samples_ exampleOnce.trg_samples_ 2 false =
      .ok exampleOnce ∧
    ((runCalls exampleOnce [Call.getSamples]).2.rewind.current_ = 0 ∧
    (runCalls exampleOnce [Call.getSamples]).2.rewind.iterated_ = (runCalls exampleOnce [Call.getSamples]).2.iterated_ ∧
    (runCalls exampleOnce [Call.getSamples]).2.rewind.src_samples_ = (runCalls exampleOnce [Call.getSamples]).2.src_samples_ ∧
    (runCalls exampleOnce [Call.getSamples]).2.rewind.trg_samples_ = (runCalls exampleOnce [Call.getSamples]).2.trg_samples_ ∧
    (runCalls exampleOnce [Call.getSamples]).2.rewind.batch_size_ = (runCalls exampleOnce [Call.getSamples]).2.batch_size_ ∧
    (runCalls exampleOnce [Call.getSamples]).2.rewind.forever_ = (runCalls exampleOnce [Call.getSamples]).2.forever_ ∧
    (runCalls (runCalls exampleOnce [Call.getSamples]).2.rewind [Call.getSamples, Call.getSamples]).1 = (runCalls exampleOnce [Call.getSamples, Call.getSamples]).1) :=
  ⟨rfl,
    rewind_frame_and_replay exampleOnce.src_samples_ exampleOnce.trg_samples_ 2 false
      exampleOnce rfl [Call.getSamples] [Call.getSamples, Call.getSamples]⟩

end MonotoneSampler

/-! ## Lemmas on `SortedRandomSampler` -/

namespace SortedRandomSampler

theorem shuffle_perm {α : Type} (gen : Generator) (l : List α) (rnd : Nat) :
    (shuffle gen l rnd).1.Perm l := by
  induction l with
  | nil => simp [shuffle]
  | cons x xs ih =>
    simp only [shuffle]
    refine (List.perm_insertIdx x _ ?_).trans (List.Perm.cons x ih)
    exact Nat.le_of_lt_succ (Nat.mod_lt _ (Nat.succ_pos _))

theorem sortSamples_perm (m : SortMethod) (l : List Sample) :
    (sortSamples m l).Perm l := by
  cases m <;> simp [sortSamples, List.perm_insertionSort]

theorem bucket_flatten (metric : BudgetMetric) (budget : Int) (l : List Sample) :
    ∀ (cur : List Sample) (curMax : Nat),
      (bucket metric budget l cur curMax).flatten = cur ++ l := by
  induction l with
  | nil =>
    intro cur curMax
    cases cur <;> simp [bucket]
  | cons x rest ih =>
    intro cur curMax
    simp only [bucket]
    split_ifs
    · simp [ih]
    · simp [ih]

theorem maxCost_append_singleton (metric : BudgetMetric) (cur : List Sample)
    (x : Sample) :
    maxCost metric (cur ++ [x]) = max (maxCost metric cur) (itemCost metric x) := by
  induction cur with
  | nil => simp [maxCost]
  | cons y ys ih =>
    simp only [maxCost, List.cons_append, List.map_cons, List.foldr_cons] at ih ⊢
    rw [ih, max_assoc]

theorem itemCost_le_maxCost (metric : BudgetMetric) (batch : List Sample) (x : Sample)
    (hx : x ∈ batch) : itemCost metric x ≤ maxCost metric batch := by
  induction batch with
  | nil => cases hx
  | cons y ys ih =>
    simp only [maxCost, List.map_cons, List.foldr_cons] at ih ⊢
    rcases List.mem_cons.mp hx with rfl | h
    · exact le_max_left _ _
    · exact le_trans (ih h) (le_max_right _ _)

/-- The greedy pass only emits batches within the budget, provided the open
batch it starts from is. -/
theorem bucket_withinBudget (metric : BudgetMetric) (budget : Int) (l : List Sample) :
    ∀ (cur : List Sample) (curMax : Nat),
      curMax = maxCost metric cur →
      (cur.length ≤ 1 ∨ ((cur.length * curMax : Nat) : Int) ≤ budget) →
      ∀ b ∈ bucket metric budget l cur curMax, WithinBudget metric budget b := by
  induction l with
  | nil =>
    intro cur curMax hmax hcur b hb
    cases cur with
    | nil => simp [bucket] at hb
    | cons y ys =>
      simp only [bucket, List.isEmpty_cons, Bool.false_eq_true, if_false,
        List.mem_singleton] at hb
      subst hb hmax
      refine ⟨by simp, ?_⟩
      rcases hcur with h | h
      · left; simp only [List.length_cons] at h ⊢; omega
      · right; exact h
  | cons x rest ih =>
    intro cur curMax hmax hcur b hb
    simp only [bucket] at hb
    split_ifs at hb with hclose
    · rcases List.mem_cons.mp hb with rfl | hb
      · have hne : b ≠ [] := by
          intro h; simp [h] at hclose
        refine ⟨hne, ?_⟩
        subst hmax
        rcases hcur with h | h
        · left
          have := List.length_pos.mpr hne
          omega
        · right; exact h
      · exact ih [x] (itemCost metric x) (by simp [maxCost]) (Or.inl (by simp)) b hb
    · refine ih (cur ++ [x]) (max curMax (itemCost metric x))
        (by rw [maxCost_append_singleton, hmax]) ?_ b hb
      rw [not_and_or] at hclose
      rcases hclose with h | h
      · right
        rw [List.length_append, List.length_singleton]
        exact not_lt.mp h
      · left
        simp only [Bool.not_eq_true, Bool.not_eq_false] at h
        simp [List.isEmpty_iff.mp h]

/-- Whatever the sampler held before, `rewind` leaves a plan that partitions
the working set into batches within the budget. -/
theorem rewind_planOk (gen : Generator) (s : SortedRandomSampler) :
    PlanOk s.budget_metric s.num_words_in_batch s.working_set (s.rewind gen) := by
  refine ⟨rfl, rfl, rfl, ?_, ?_⟩
  · simp only [rewind]
    refine ((shuffle_perm gen _ _).flatten).trans ?_
    rw [bucket_flatten, List.nil_append]
    exact (sortSamples_perm _ _).trans (shuffle_perm gen _ _)
  · intro b hb
    simp only [rewind] at hb
    have hb2 := (shuffle_perm gen _ _).subset hb
    exact bucket_withinBudget _ _ _ [] 0 (by simp [maxCost]) (Or.inl (by simp)) b hb2

theorem getSamples_eq (s : SortedRandomSampler) (out : List Sample)
    (h : s.current < s.batch_plan.length) :
    s.getSamples out =
      .ok (s.batch_plan[s.current],
        { s with current := s.current + 1,
                 iterated := s.iterated + (s.batch_plan[s.current]).length }) := by
  simp [getSamples, List.getElem?_eq_getElem h]

/-- One call keeps the invariant, and a batch it returns is one of the plan. -/
theorem call_planOk (gen : Generator) (metric : BudgetMetric) (budget : Int)
    (ws : List Sample) (s : SortedRandomSampler) (c : Call)
    (h : PlanOk metric budget ws s) :
    PlanOk metric budget ws (call gen s c).2 ∧
      ∀ batch, (call gen s c).1 = .returned batch → batch ∈ s.batch_plan := by
  obtain ⟨rfl, rfl, rfl, h4, h5⟩ := h
  cases c with
  | getSamples =>
    simp only [call, getSamples]
    cases hg : s.batch_plan[s.current]? with
    | none => exact ⟨⟨rfl, rfl, rfl, h4, h5⟩, by simp⟩
    | some b =>
      refine ⟨⟨rfl, rfl, rfl, h4, h5⟩, ?_⟩
      intro batch hb
      simp only [Event.returned.injEq] at hb
      exact hb ▸ List.getElem?_mem hg
  | rewind => exact ⟨rewind_planOk gen s, by simp [call]⟩
  | reset => exact ⟨rewind_planOk gen { s with iterated := 0 }, by simp [call]⟩

theorem runCalls_planOk (gen : Generator) (metric : BudgetMetric) (budget : Int)
    (ws : List Sample) (calls : List Call) :
    ∀ s : SortedRandomSampler, PlanOk metric budget ws s →
      PlanOk metric budget ws (runCalls gen s calls).2 ∧
      ∀ batch, Event.returned batch ∈ (runCalls gen s calls).1 →
        WithinBudget metric budget batch ∧ ∀ x ∈ batch, x ∈ ws := by
  induction calls with
  | nil =>
    intro s h
    exact ⟨h, by simp [runCalls]⟩
  | cons c cs ih =>
    intro s h
    obtain ⟨hnext, hret⟩ := call_planOk gen metric budget ws s c h
    obtain ⟨hfin, hrest⟩ := ih _ hnext
    refine ⟨hfin, ?_⟩
    intro batch hb
    simp only [runCalls, List.mem_cons] at hb
    rcases hb with hb | hb
    · have hmem := hret batch hb.symm
      refine ⟨h.2.2.2.2 batch hmem, ?_⟩
      intro x hx
      exact (h.2.2.2.1.mem_iff).mp (List.mem_flatten.mpr ⟨batch, hmem, hx⟩)
    · exact hrest batch hb

/-- A successfully constructed sampler: its working set is the filtered
corpus and is non-empty, the budget is positive, the plan is in order and
both cursors are 0. -/
theorem sorted_new_ok {gen : Generator} {src trg : List Sentence} {metric : BudgetMetric}
    {sort_method : SortMethod} {budget : Int} {max_length : Nat} {ratio : ℚ}
    {seed : Nat} {s0 : SortedRandomSampler}
    (h : SortedRandomSampler.new gen src trg metric sort_method budget max_length
      ratio seed = .ok s0) :
    PlanOk metric budget
        ((List.zipWith Sample.mk src trg).filter (keeps max_length ratio)) s0 ∧
      (List.zipWith Sample.mk src trg).filter (keeps max_length ratio) ≠ [] ∧
      0 < budget ∧ s0.current = 0 ∧ s0.iterated = 0 := by
  unfold SortedRandomSampler.new at h
  split_ifs at h with h1 h2 h3
  simp only [Except.ok.injEq] at h
  subst h
  refine ⟨rewind_planOk gen _, ?_, by omega, rfl, rfl⟩
  intro hnil
  simp [hnil] at h3

/-- The batches still to come are those of the plan from the cursor on; the
loop makes one call for each. -/
theorem drain_plan (m : Nat) :
    ∀ (s : SortedRandomSampler) (samples : List Sample) (acc : List (List Sample)),
      s.current + m = s.batch_plan.length →
      ∃ sEnd, (∀ fuel, drain fuel s samples acc =
          if fuel < m then .ok none
          else .ok (some (acc ++ s.batch_plan.drop s.current, sEnd))) ∧
        sEnd.hasSamples = false := by
  induction m with
  | zero =>
    intro s samples acc hm
    have hs : s.hasSamples = false := by simp [hasSamples]; omega
    refine ⟨s, ?_, hs⟩
    intro fuel
    have hd : s.batch_plan.drop s.current = [] := List.drop_eq_nil_of_le (by omega)
    cases fuel <;> simp [drain, hs, hd]
  | succ m ih =>
    intro s samples acc hm
    have hc : s.current < s.batch_plan.length := by omega
    have hs : s.hasSamples = true := by simp [hasSamples]; omega
    obtain ⟨sEnd, hdrain, hend⟩ :=
      ih { s with current := s.current + 1,
                  iterated := s.iterated + (s.batch_plan[s.current]).length }
        s.batch_plan[s.current] (acc ++ [s.batch_plan[s.current]])
        (by simp only; omega)
    refine ⟨sEnd, ?_, hend⟩
    intro fuel
    cases fuel with
    | zero => simp [drain, hs]
    | succ fuel =>
      simp only [drain, hs, Bool.not_true, Bool.false_eq_true, if_false,
        getSamples_eq s samples hc, hdrain, Nat.add_lt_add_iff_right]
      rw [List.drop_eq_getElem_cons hc]
      simp

theorem keeps_length (max_length : Nat) (ratio : ℚ) (x : Sample)
    (h : keeps max_length ratio x = true) :
    x.source.length ≤ max_length ∧ x.target.length ≤ max_length := by
  simp only [keeps, Bool.not_eq_true', Bool.or_eq_false_iff, decide_eq_false_iff_not,
    not_lt] at h
  exact ⟨h.1.1, h.1.2⟩

theorem itemCost_le (metric : BudgetMetric) (max_length : Nat) (x : Sample)
    (h : x.source.length ≤ max_length ∧ x.target.length ≤ max_length) :
    itemCost metric x ≤ max 1 max_length := by
  cases metric
  · exact le_max_left _ _
  · exact le_trans h.1 (le_max_right _ _)
  · exact le_trans h.2 (le_max_right _ _)

/-- C9. Every batch a constructed sampler ever returns is non-empty and,
unless it is a single sample, satisfies `|b| * (largest cost in b) <=
num_words_in_batch`, the cost being the length of the budgeted side under a
word-count metric; in particular, under `target_word`, batch size times the
target length of the last sample of such a batch is within the budget. When
`max_length <= num_words_in_batch` single-sample batches are within the budget
too. The reference sizes and lengths of the test obey the same bound. -/
theorem budget_invariant (gen : Generator) (src trg : List Sentence)
    (metric : BudgetMetric) (sort_method : SortMethod) (budget : Int)
    (max_length : Nat) (ratio : ℚ) (seed : Nat) (s0 : SortedRandomSampler)
    (h : SortedRandomSampler.new gen src trg metric sort_method budget max_length
      ratio seed = .ok s0)
    (calls : List Call) (batch : List Sample)
    (hb : Event.returned batch ∈ (runCalls gen s0 calls).1) :
    batch ≠ [] ∧
    (batch.length = 1 ∨ ((batch.length * maxCost metric batch : Nat) : Int) ≤ budget) ∧
    (metric = .target_word → ∀ last, batch.getLast? = some last →
      batch.length = 1 ∨ ((batch.length * last.target.length : Nat) : Int) ≤ budget) ∧
    (metric = .source_word → ∀ x ∈ batch,
      batch.length = 1 ∨ ((batch.length * x.source.length : Nat) : Int) ≤ budget) ∧
    ((max_length : Int) ≤ budget →
      ((batch.length * maxCost metric batch : Nat) : Int) ≤ budget) ∧
    (∀ p ∈ List.zip expected_batch_sizes expected_lengths, p.1 * p.2 ≤ 256) := by
  obtain ⟨hplan, -, hpos, -, -⟩ := sorted_new_ok h
  obtain ⟨-, hret⟩ := runCalls_planOk gen metric budget _ calls s0 hplan
  obtain ⟨⟨hne, hbud⟩, hmem⟩ := hret batch hb
  have hall : ∀ x ∈ batch,
      batch.length = 1 ∨ ((batch.length * itemCost metric x : Nat) : Int) ≤ budget := by
    intro x hx
    rcases hbud with h1 | h1
    · exact Or.inl h1
    · right
      have := Nat.mul_le_mul_left batch.length (itemCost_le_maxCost metric batch x hx)
      omega
  refine ⟨hne, hbud, ?_, ?_, ?_, by decide⟩
  · rintro rfl last hlast
    exact hall last (List.mem_of_mem_getLast? hlast)
  · rintro rfl x hx
    exact hall x hx
  · intro hml
    rcases hbud with h1 | h1
    · obtain ⟨x, rfl⟩ := List.length_eq_one.mp h1
      have hx := (List.mem_filter.mp (hmem x (List.mem_singleton.mpr rfl))).2
      have hc := itemCost_le metric max_length x (keeps_length _ _ _ hx)
      have hm : maxCost metric [x] = itemCost metric x := by simp [maxCost]
      rw [hm, List.length_singleton, Nat.one_mul]
      rcases le_max_iff.mp hc with h2 | h2 <;> omega
    · exact h1

/-- C10. In any state of a constructed sampler whose plan position is 0 (after
construction, `rewind()` or `reset()`), calling `getSamples` until
`hasSamples()` is false returns batches whose concatenation is a permutation
of the filtered working set, so their sizes sum to its size; the working set
never changes; `hasSamples()` is true after construction and after every
`rewind()`; the reference batch sizes of the test sum to 500. -/
theorem full_pass_covers_working_set (gen : Generator) (src trg : List Sentence)
    (metric : BudgetMetric) (sort_method : SortMethod) (budget : Int)
    (max_length : Nat) (ratio : ℚ) (seed : Nat) (s0 : SortedRandomSampler)
    (h : SortedRandomSampler.new gen src trg metric sort_method budget max_length
      ratio seed = .ok s0)
    (calls : List Call) (samples : List Sample) :
    (runCalls gen s0 calls).2.working_set =
      (List.zipWith Sample.mk src trg).filter (keeps max_length ratio) ∧
    ((runCalls gen s0 calls).2.current = 0 →
      ∃ batches sEnd,
        (∀ fuel, drain fuel (runCalls gen s0 calls).2 samples [] =
          if fuel < batches.length then .ok none else .ok (some (batches, sEnd))) ∧
        batches.flatten.Perm (runCalls gen s0 calls).2.working_set ∧
        (batches.map List.length).sum = (runCalls gen s0 calls).2.working_set.length ∧
        sEnd.hasSamples = false) ∧
    s0.current = 0 ∧ s0.hasSamples = true ∧
    ((runCalls gen s0 calls).2.rewind gen).current = 0 ∧
    ((runCalls gen s0 calls).2.rewind gen).hasSamples = true ∧
    expected_batch_sizes.sum = 500 := by
  obtain ⟨hplan, hws, -, hc0, -⟩ := sorted_new_ok h
  obtain ⟨hfin, -⟩ := runCalls_planOk gen metric budget _ calls s0 hplan
  have hnonempty : ∀ s : SortedRandomSampler,
      PlanOk metric budget
        ((List.zipWith Sample.mk src trg).filter (keeps max_length ratio)) s →
      s.current = 0 → s.hasSamples = true := by
    intro s hs hc
    have hp : s.batch_plan ≠ [] := by
      intro hnil
      have := hs.2.2.2.1
      rw [hnil, List.flatten_nil] at this
      exact hws this.symm.eq_nil
    simp only [hasSamples, hc, decide_eq_true_eq]
    exact List.length_pos.mpr hp
  have hrew := (call_planOk gen metric budget _ _ Call.rewind hfin).1
  refine ⟨hfin.2.2.1, ?_, hc0, hnonempty s0 hplan hc0, rfl,
    hnonempty _ hrew rfl, by decide⟩
  intro hcur
  obtain ⟨sEnd, hdrain, hend⟩ :=
    drain_plan (runCalls gen s0 calls).2.batch_plan.length (runCalls gen s0 calls).2
      samples [] (by omega)
  refine ⟨(runCalls gen s0 calls).2.batch_plan, sEnd, ?_, ?_, ?_, hend⟩
  · simpa [hcur] using hdrain
  · rw [hfin.2.2.1]; exact hfin.2.2.2.1
  · rw [← List.length_flatten, hfin.2.2.1]
    exact hfin.2.2.2.1.length_eq

theorem example_filter :
    (List.zipWith Sample.mk exampleSource exampleTarget).filter (keeps 100 3) =
      List.zipWith Sample.mk exampleSource exampleTarget := by
  simp [exampleSource, exampleTarget, keeps]
  norm_num

theorem example_new :
    SortedRandomSampler.new lcg exampleSource exampleTarget .target_word .target_source 6 100 3
      12345 = .ok exampleSorted := by
  unfold SortedRandomSampler.new
  rw [example_filter]
  rfl

/-- The hypotheses of `budget_invariant` hold for the first batch returned by
`exampleSorted`. -/
theorem budget_invariant_witness :
    SortedRandomSampler.new lcg exampleSource exampleTarget .target_word .target_source 6 100 3
      12345 = .ok exampleSorted ∧
    Event.returned exampleBatch ∈ (runCalls lcg exampleSorted [Call.getSamples]).1 ∧
    (exampleBatch ≠ [] ∧
    (exampleBatch.length = 1 ∨ ((exampleBatch.length * maxCost BudgetMetric.target_word exampleBatch : Nat) : Int) ≤ (6 : Int)) ∧
    (BudgetMetric.target_word = .target_word → ∀ last, exampleBatch.getLast? = some last →
      exampleBatch.length = 1 ∨ ((exampleBatch.length * last.target.length : Nat) : Int) ≤ (6 : Int)) ∧
    (BudgetMetric.target_word = .source_word → ∀ x ∈ exampleBatch,
      exampleBatch.length = 1 ∨ ((exampleBatch.length * x.source.length : Nat) : Int) ≤ (6 : Int)) ∧
    (((100 : Nat) : Int) ≤ (6 : Int) →
      ((exampleBatch.length * maxCost BudgetMetric.target_word exampleBatch : Nat) : Int) ≤ (6 : Int)) ∧
    (∀ p ∈ List.zip expected_batch_sizes expected_lengths, p.1 * p.2 ≤ 256)) :=
  ⟨example_new, by decide,
    budget_invariant lcg exampleSource exampleTarget .target_word .target_source 6 100 3
      12345 exampleSorted example_new [Call.getSamples] exampleBatch (by decide)⟩

/-- The hypothesis of `full_pass_covers_working_set` holds for the construction
of `exampleSorted`. -/
theorem full_pass_covers_working_set_witness :
    SortedRandomSampler.new lcg exampleSource exampleTarget .target_word .target_source 6 100 3
      12345 = .ok exampleSorted ∧
    ((runCalls lcg exampleSorted [Call.getSamples, Call.rewind]).2.working_set =
      (List.zipWith Sample.mk exampleSource exampleTarget).filter (keeps 100 3) ∧
    ((runCalls lcg exampleSorted [Call.getSamples, Call.rewind]).2.current = 0 →
      ∃ batches sEnd,
        (∀ fuel, drain fuel (runCalls lcg exampleSorted [Call.getSamples, Call.rewind]).2 ([] : List Sample) [] =
          if fuel < batches.length then .ok none else .ok (some (batches, sEnd))) ∧
        batches.flatten.Perm (runCalls lcg exampleSorted [Call.getSamples, Call.rewind]).2.working_set ∧
        (batches.map List.length).sum = (runCalls lcg exampleSorted [Call.getSamples, Call.rewind]).2.working_set.length ∧
        sEnd.hasSamples = false) ∧
    exampleSorted.current = 0 ∧ exampleSorted.hasSamples = true ∧
    ((runCalls lcg exampleSorted [Call.getSamples, Call.rewind]).2.rewind lcg).current = 0 ∧
    ((runCalls lcg exampleSorted [Call.getSamples, Call.rewind]).2.rewind lcg).hasSamples = true ∧
    expected_batch_sizes.sum = 500) :=
  ⟨example_new,
    full_pass_covers_working_set lcg exampleSource exampleTarget .target_word
      .target_source 6 100 3 12345 exampleSorted example_new
      [Call.getSamples, Call.rewind] []⟩

end SortedRandomSampler

/-! ## Lemmas on `decodeForInference` -/

namespace EncoderDecoder

end EncoderDecoder

end NMTKit
